import Mathlib

/-!
# Verification of LBT-2-PH helper and component logic

A shallow embedding of the pure logic of the LBT-2-PH repository
(`scripts/LBT2PH/helpers.py` and the `ghuser_py` component scripts).

Python strings are modelled as `List Char`, Python floats as `ℚ`
(exact rational arithmetic standing in for IEEE doubles; the claims
treated here concern the symbolic structure of the computed values,
not rounding), and Python's substring test `a in b` as the list-infix
relation.  Exceptions that the source catches with bare `except:` are
folded into `Option`; exceptions that can escape a function are made
explicit with `Except`.
-/

namespace LBT2PH

/-- The ASCII-digit test (`0` – `9`), modelling the character class `\d`
of the byte-string regexes used in `helpers.py`. -/
def isDigitCh (c : Char) : Bool := 48 ≤ c.toNat && c.toNat ≤ 57

/-- A digit or a decimal point: the character class `[\d\.]` whose
complement `re.split` uses in `convert_value_to_metric`. -/
def isDigitOrDot (c : Char) : Bool := isDigitCh c || c == '.'

/-- ASCII upper-casing of one character, modelling `str.upper` per char. -/
def upperChar (c : Char) : Char :=
  if 97 ≤ c.toNat && c.toNat ≤ 122 then Char.ofNat (c.toNat - 32) else c

/-- Numeric value of a digit character. -/
def digitVal (c : Char) : ℚ := ((c.toNat - 48 : ℕ) : ℚ)

/-- Value of a digit run read as an integer part. -/
def intPartVal (l : List Char) : ℚ := l.foldl (fun acc c => 10 * acc + digitVal c) 0

/-- Value of a digit run read as a fractional part (digits after the point). -/
def fracPartVal (l : List Char) : ℚ := l.foldr (fun c acc => (digitVal c + acc) / 10) 0

/-- Recogniser for an unsigned decimal numeral: `digits`,
`digits.digits`, `digits.` or `.digits` (at least one digit overall). -/
def isNumeralB (l : List Char) : Bool :=
  let ip := l.takeWhile isDigitCh
  let rest := l.dropWhile isDigitCh
  match rest with
  | [] => !ip.isEmpty
  | c :: r => c == '.' && r.all isDigitCh && !(ip.isEmpty && r.isEmpty)

/-- Value of an unsigned decimal numeral: the integer part plus the
fractional part after the decimal point (if any). -/
def numValOf (l : List Char) : ℚ :=
  intPartVal (l.takeWhile isDigitCh) + fracPartVal ((l.dropWhile isDigitCh).drop 1)

/-- Parse of an unsigned decimal numeral. -/
def numVal? (l : List Char) : Option ℚ :=
  if isNumeralB l then some (numValOf l) else none

/-- Model of Python's `float(str)` on its decimal fragment: an optional
sign followed by an unsigned decimal numeral.  Scientific notation,
infinities, `nan` and surrounding whitespace are outside the modelled
fragment (none of the strings the claims concern use them); on every
other string the model agrees with `float`: `some` the value when the
parse succeeds, `none` when `float` raises `ValueError`. -/
def pyFloat (l : List Char) : Option ℚ :=
  match l with
  | '-' :: r => (numVal? r).map (fun q => -q)
  | '+' :: r => numVal? r
  | _ => numVal? l

/-- First maximal run of `[\d\.]` characters of a string: exactly the
first non-empty piece of `re.split(r'[^\d\.]', s)`, or `none` when the
string has no digit-or-dot character at all. -/
def firstNumRun (l : List Char) : Option (List Char) :=
  match l with
  | [] => none
  | c :: r => if isDigitOrDot c then some (c :: r.takeWhile isDigitOrDot) else firstNumRun r

/-- Python's substring test `needle in hay`. -/
def pyIn (needle hay : List Char) : Bool := decide (needle <:+: hay)

/-- The apostrophe character (ASCII 39), a unit mark for feet. -/
def footMark : Char := Char.ofNat 39

/-- The double-quote character (ASCII 34), a unit mark for inches. -/
def inchMark : Char := Char.ofNat 34

/-- The `if/elif` chain of `helpers.find_input_string`, applied to the
already upper-cased text. -/
def classifyUpper (e : List Char) : List Char :=
  if pyIn (("FT").toList) e || pyIn [footMark] e then ("FT").toList
  else if pyIn (("IN").toList) e || pyIn [inchMark] e then ("IN").toList
  else if pyIn (("MM").toList) e then ("MM").toList
  else if pyIn (("CM").toList) e then ("CM").toList
  else if pyIn (("M").toList) e && !(pyIn (("MM").toList) e) then ("M").toList
  else if pyIn (("IP").toList) e then ("IP").toList
  else if pyIn (("FT3").toList) e then ("FT3").toList
  else ("SI").toList

/-- `helpers.find_input_string`: upper-case the input (`evalString`)
and classify its unit suffix. -/
def find_input_string (s : List Char) : List Char :=
  classifyUpper (s.map upperChar)

/-- The conversion schema of `helpers.convert_value_to_metric`, with the
source's float literals as exact rationals. -/
def schema : List (List Char × List (List Char × ℚ)) :=
  [ (("M").toList,
      [ (("SI").toList, 1), (("M").toList, 1), (("CM").toList, 0.01), (("MM").toList, 0.001),
        (("FT").toList, 0.3048), ([footMark], 0.3048), (("IN").toList, 0.0254), ([inchMark], 0.0254) ]),
    (("CM").toList,
      [ (("SI").toList, 1), (("M").toList, 100), (("CM").toList, 1), (("MM").toList, 0.1),
        (("FT").toList, 30.48), ([footMark], 30.48), (("IN").toList, 2.54), ([inchMark], 2.54) ]),
    (("MM").toList,
      [ (("SI").toList, 1), (("M").toList, 1000), (("CM").toList, 10), (("MM").toList, 1),
        (("FT").toList, 304.8), ([footMark], 304.8), (("IN").toList, 25.4), ([inchMark], 25.4) ]),
    (("W/M2K").toList, [ (("SI").toList, 1), (("IP").toList, 5.678264134) ]),
    (("W/MK").toList, [ (("SI").toList, 1), (("IP").toList, 1.730734908) ]),
    (("M3").toList, [ (("SI").toList, 1), (("FT3").toList, 0.028316847) ]) ]

/-- `schema.get(outUnit, {}).get(inUnit, 1)` of the source. -/
def schemaFactor (outUnit inUnit : List Char) : ℚ :=
  (((List.lookup outUnit schema).getD []).lookup inUnit).getD 1

/-- A Python value as `convert_value_to_metric` sees it: `None`, a
number, or a string. -/
inductive PyVal where
  | pynone : PyVal
  | num : ℚ → PyVal
  | str : List Char → PyVal
deriving DecidableEq

/-- `helpers.convert_value_to_metric`.  The source's two `try/except`
levels catch everything raised inside them, so the function is total:
`float(x)` success returns the number; otherwise the first digit-run is
pulled out (the `inputValue` variable is overwritten by it when one
exists), a factor is looked up from the unit suffix of the original
string, and the run is parsed; if that inner parse fails the (possibly
overwritten) `inputValue` is returned. -/
def convert_value_to_metric (inp : PyVal) (outUnit : List Char) : PyVal :=
  match inp with
  | .pynone => .pynone
  | .num q => .num q
  | .str s =>
    match pyFloat s with
    | some q => .num q
    | none =>
      let inputValue := (firstNumRun s).getD s
      let inputUnit := find_input_string s
      let conversionFactor := schemaFactor outUnit inputUnit
      match pyFloat inputValue with
      | some q => .num (q * conversionFactor)
      | none => .str inputValue

/-! ## Helper lemmas on the character-level model -/

theorem upperChar_digitOrDot {c : Char} (h : isDigitOrDot c = true) : upperChar c = c := by
  simp only [isDigitOrDot, isDigitCh, Bool.or_eq_true, Bool.and_eq_true, decide_eq_true_eq,
    beq_iff_eq] at h
  rcases h with ⟨h1, h2⟩ | h
  · unfold upperChar
    rw [if_neg]
    simp only [Bool.and_eq_true, decide_eq_true_eq, not_and]
    omega
  · subst h; decide

theorem map_upperChar_digits {d : List Char} (hd : d.all isDigitOrDot = true) :
    d.map upperChar = d := by
  induction d with
  | nil => rfl
  | cons a d ih =>
    rw [List.all_cons, Bool.and_eq_true] at hd
    simp [upperChar_digitOrDot hd.1, ih hd.2]

theorem takeWhile_all_append {α : Type} {p : α → Bool} :
    ∀ {l r : List α}, l.all p = true → List.takeWhile p (l ++ r) = l ++ List.takeWhile p r := by
  intro l
  induction l with
  | nil => simp
  | cons a l ih =>
    intro r h
    rw [List.all_cons, Bool.and_eq_true] at h
    simp [List.takeWhile_cons, h.1, ih h.2]

theorem isNumeralB_all {l : List Char} (h : isNumeralB l = true) :
    l.all isDigitOrDot = true := by
  have hsplit : List.takeWhile isDigitCh l ++ List.dropWhile isDigitCh l = l :=
    List.takeWhile_append_dropWhile isDigitCh l
  rw [← hsplit, List.all_append, Bool.and_eq_true]
  constructor
  · rw [List.all_eq_true]
    intro x hx
    have := List.mem_takeWhile_imp hx
    simp [isDigitOrDot, this]
  · unfold isNumeralB at h
    cases hr : List.dropWhile isDigitCh l with
    | nil => simp
    | cons c r =>
      rw [hr] at h
      simp only [Bool.and_eq_true, beq_iff_eq] at h
      obtain ⟨⟨hc, hall⟩, _⟩ := h
      subst hc
      rw [List.all_cons, Bool.and_eq_true]
      refine ⟨by decide, ?_⟩
      rw [List.all_eq_true] at hall ⊢
      intro x hx
      simp [isDigitOrDot, hall x hx]

theorem numVal?_none_of_space {l : List Char} (h : (' ') ∈ l) : numVal? l = none := by
  unfold numVal?
  rw [if_neg]
  intro hnum
  have := isNumeralB_all hnum
  rw [List.all_eq_true] at this
  have := this _ h
  exact absurd this (by decide)

theorem pyFloat_none_of_space {l : List Char} (h : (' ') ∈ l) : pyFloat l = none := by
  unfold pyFloat
  split
  · rename_i r
    have hr : (' ') ∈ r := by
      rcases List.mem_cons.mp h with h1 | h1
      · exact absurd h1 (by decide)
      · exact h1
    rw [numVal?_none_of_space hr]
    rfl
  · rename_i r
    have hr : (' ') ∈ r := by
      rcases List.mem_cons.mp h with h1 | h1
      · exact absurd h1 (by decide)
      · exact h1
    exact numVal?_none_of_space hr
  · exact numVal?_none_of_space h

theorem firstNumRun_append {d s : List Char} {x : Char} (h1 : d ≠ [])
    (h2 : d.all isDigitOrDot = true) (h3 : isDigitOrDot x = false) :
    firstNumRun (d ++ x :: s) = some d := by
  cases d with
  | nil => exact absurd rfl h1
  | cons c d =>
    rw [List.all_cons, Bool.and_eq_true] at h2
    rw [List.cons_append]
    unfold firstNumRun
    rw [if_pos h2.1]
    rw [takeWhile_all_append h2.2, List.takeWhile_cons, if_neg (by simp [h3])]
    simp

theorem headNotDigit_append_iff {c : Char} {p : List Char} :
    ∀ {d : List Char} {r : List Char}, isDigitOrDot c = false → d.all isDigitOrDot = true →
      ((c :: p) <:+: d ++ r ↔ (c :: p) <:+: r) := by
  intro d
  induction d with
  | nil => intro r _ _; rfl
  | cons a d ih =>
    intro r hc hd
    rw [List.all_cons, Bool.and_eq_true] at hd
    rw [List.cons_append, List.infix_cons_iff]
    constructor
    · rintro (hpre | hinf)
      · rcases List.prefix_cons_iff.mp hpre with h0 | ⟨t, ht, _⟩
        · exact absurd h0 (by simp)
        · injection ht with ha _
          rw [← ha] at hd
          rw [hd.1] at hc
          exact absurd hc (by simp)
      · exact (ih hc hd.2).mp hinf
    · intro hr
      exact Or.inr ((ih hc hd.2).mpr hr)

theorem classifyUpper_append {d r : List Char} (hd : d.all isDigitOrDot = true) :
    classifyUpper (d ++ r) = classifyUpper r := by
  have e : ∀ (c : Char) (p : List Char), isDigitOrDot c = false →
      pyIn (c :: p) (d ++ r) = pyIn (c :: p) r := by
    intro c p hc
    exact decide_eq_decide.mpr (headNotDigit_append_iff hc hd)
  have hFT : pyIn (("FT").toList) (d ++ r) = pyIn (("FT").toList) r :=
    e (Char.ofNat 70) (("T").toList) (by decide)
  have hAp : pyIn [footMark] (d ++ r) = pyIn [footMark] r := e footMark [] (by decide)
  have hIN : pyIn (("IN").toList) (d ++ r) = pyIn (("IN").toList) r :=
    e (Char.ofNat 73) (("N").toList) (by decide)
  have hQu : pyIn [inchMark] (d ++ r) = pyIn [inchMark] r := e inchMark [] (by decide)
  have hMM : pyIn (("MM").toList) (d ++ r) = pyIn (("MM").toList) r :=
    e (Char.ofNat 77) (("M").toList) (by decide)
  have hCM : pyIn (("CM").toList) (d ++ r) = pyIn (("CM").toList) r :=
    e (Char.ofNat 67) (("M").toList) (by decide)
  have hM : pyIn (("M").toList) (d ++ r) = pyIn (("M").toList) r :=
    e (Char.ofNat 77) [] (by decide)
  have hIP : pyIn (("IP").toList) (d ++ r) = pyIn (("IP").toList) r :=
    e (Char.ofNat 73) (("P").toList) (by decide)
  have hFT3 : pyIn (("FT3").toList) (d ++ r) = pyIn (("FT3").toList) r :=
    e (Char.ofNat 70) (("T3").toList) (by decide)
  simp only [classifyUpper, hFT, hAp, hIN, hQu, hMM, hCM, hM, hIP, hFT3]

theorem find_append_digits {d s : List Char} (hd : d.all isDigitOrDot = true) :
    find_input_string (d ++ (' ') :: s) = find_input_string ((' ') :: s) := by
  unfold find_input_string
  rw [List.map_append, map_upperChar_digits hd]
  exact classifyUpper_append hd

theorem pyFloat_head_digit {c : Char} {r : List Char} (h : isDigitOrDot c = true) :
    pyFloat (c :: r) = numVal? (c :: r) := by
  unfold pyFloat
  split
  · rename_i r' heq
    injection heq with h1 _
    rw [h1] at h
    exact absurd h (by decide)
  · rename_i r' heq
    injection heq with h1 _
    rw [h1] at h
    exact absurd h (by decide)
  · rfl

theorem intPartVal_aux (l : List Char) : ∀ acc : ℚ, 0 ≤ acc →
    0 ≤ l.foldl (fun acc c => 10 * acc + digitVal c) acc := by
  induction l with
  | nil => intro acc h; simpa using h
  | cons a l ih =>
    intro acc h
    rw [List.foldl_cons]
    refine ih _ ?_
    have h1 : (0 : ℚ) ≤ digitVal a := Nat.cast_nonneg _
    have h2 : (0 : ℚ) ≤ 10 * acc := by positivity
    linarith

theorem intPartVal_nonneg (l : List Char) : 0 ≤ intPartVal l :=
  intPartVal_aux l 0 le_rfl

theorem fracPartVal_nonneg (l : List Char) : 0 ≤ fracPartVal l := by
  induction l with
  | nil => simp [fracPartVal]
  | cons a l ih =>
    unfold fracPartVal at ih ⊢
    rw [List.foldr_cons]
    have h1 : (0 : ℚ) ≤ digitVal a := Nat.cast_nonneg _
    positivity

theorem numValOf_nonneg (l : List Char) : 0 ≤ numValOf l :=
  add_nonneg (intPartVal_nonneg _) (fracPartVal_nonneg _)

theorem pyFloat_nonneg_of_head {c : Char} {r : List Char} {q : ℚ}
    (h : isDigitOrDot c = true) (hq : pyFloat (c :: r) = some q) : 0 ≤ q := by
  rw [pyFloat_head_digit h] at hq
  unfold numVal? at hq
  split at hq
  · injection hq with hq
    rw [← hq]
    exact numValOf_nonneg _
  · exact absurd hq (by simp)

theorem firstNumRun_shape {l run : List Char} (h : firstNumRun l = some run) :
    run ≠ [] ∧ run.all isDigitOrDot = true := by
  induction l with
  | nil => exact absurd h (by simp [firstNumRun])
  | cons c r ih =>
    unfold firstNumRun at h
    by_cases hc : isDigitOrDot c = true
    · rw [if_pos hc] at h
      injection h with h
      rw [← h]
      refine ⟨by simp, ?_⟩
      rw [List.all_cons, Bool.and_eq_true]
      refine ⟨hc, ?_⟩
      rw [List.all_eq_true]
      intro x hx
      exact List.mem_takeWhile_imp hx
    · rw [if_neg hc] at h
      exact ih h

theorem lookup_mem_snd {α β : Type} [BEq α] :
    ∀ {es : List (α × β)} {k : α} {v : β}, List.lookup k es = some v → v ∈ es.map Prod.snd := by
  intro es
  induction es with
  | nil => intro k v h; exact absurd h (by simp)
  | cons e es ih =>
    intro k v h
    rw [List.lookup_cons] at h
    rcases he : k == e.1 with _ | _
    · rw [he] at h
      exact List.mem_cons_of_mem _ (ih h)
    · rw [he] at h
      injection h with h
      rw [← h]
      exact List.mem_cons_self _ _

theorem schemaFactor_nonneg (u i : List Char) : 0 ≤ schemaFactor u i := by
  unfold schemaFactor
  cases hu : List.lookup u schema with
  | none => simp
  | some row =>
    have hrow : row ∈ schema.map Prod.snd := lookup_mem_snd hu
    simp only [Option.getD_some]
    cases hi : List.lookup i row with
    | none => simp
    | some f =>
      have hf : f ∈ row.map Prod.snd := lookup_mem_snd hi
      simp only [Option.getD_some]
      fin_cases hrow <;> fin_cases hf <;> norm_num

theorem convert_suffix {outU suf d : List Char} {f : ℚ} (h1 : d ≠ [])
    (h2 : d.all isDigitOrDot = true) (h3 : isNumeralB d = true)
    (hfac : schemaFactor outU (find_input_string ((' ') :: suf)) = f) :
    convert_value_to_metric (.str (d ++ (' ') :: suf)) outU = .num (numValOf d * f) := by
  have hpf : pyFloat (d ++ (' ') :: suf) = none := pyFloat_none_of_space (by simp)
  have hrun : firstNumRun (d ++ (' ') :: suf) = some d := firstNumRun_append h1 h2 (by decide)
  have hfind := find_append_digits (s := suf) h2
  have hd0 : pyFloat d = some (numValOf d) := by
    cases d with
    | nil => exact absurd rfl h1
    | cons c r =>
      rw [List.all_cons, Bool.and_eq_true] at h2
      rw [pyFloat_head_digit h2.1]
      unfold numVal?
      rw [if_pos h3]
  simp only [convert_value_to_metric, hpf, hrun, Option.getD_some, hd0, hfind, hfac]

/-- The output-unit / unit-suffix combinations of the conversion schema,
minus the pair (`'M3'`, `'FT3'`). -/
def sufCases : List (List Char × List Char) :=
  [ ((("M").toList), (("SI").toList)), ((("M").toList), (("M").toList)),
    ((("M").toList), (("CM").toList)), ((("M").toList), (("MM").toList)),
    ((("M").toList), (("FT").toList)), ((("M").toList), [footMark]),
    ((("M").toList), (("IN").toList)), ((("M").toList), [inchMark]),
    ((("CM").toList), (("SI").toList)), ((("CM").toList), (("M").toList)),
    ((("CM").toList), (("CM").toList)), ((("CM").toList), (("MM").toList)),
    ((("CM").toList), (("FT").toList)), ((("CM").toList), [footMark]),
    ((("CM").toList), (("IN").toList)), ((("CM").toList), [inchMark]),
    ((("MM").toList), (("SI").toList)), ((("MM").toList), (("M").toList)),
    ((("MM").toList), (("CM").toList)), ((("MM").toList), (("MM").toList)),
    ((("MM").toList), (("FT").toList)), ((("MM").toList), [footMark]),
    ((("MM").toList), (("IN").toList)), ((("MM").toList), [inchMark]),
    ((("W/M2K").toList), (("SI").toList)), ((("W/M2K").toList), (("IP").toList)),
    ((("W/MK").toList), (("SI").toList)), ((("W/MK").toList), (("IP").toList)),
    ((("M3").toList), (("SI").toList)) ]

/-- C1 (amended): for every input string consisting of a decimal number,
a space and a unit suffix listed in the conversion schema row of the
requested output unit, `convert_value_to_metric` returns the number
multiplied by the schema's conversion factor for that suffix — for
every such pair except (`'M3'`, `'FT3'`); for that one the `'FT'` branch
of `find_input_string` matches first, the `'M3'` row has no `'FT'` key,
and the factor falls back to 1, so the number is returned unscaled. -/
theorem C1_number_with_suffix_converts :
    (∀ outU suf d, (outU, suf) ∈ sufCases → d ≠ [] → d.all isDigitOrDot = true →
      isNumeralB d = true →
      convert_value_to_metric (.str (d ++ (' ') :: suf)) outU =
        .num (numValOf d * schemaFactor outU suf))
    ∧ (∀ d, d ≠ [] → d.all isDigitOrDot = true → isNumeralB d = true →
      convert_value_to_metric (.str (d ++ (' ') :: (("FT3").toList))) (("M3").toList) =
        .num (numValOf d * 1)) := by
  constructor
  · intro outU suf d hmem h1 h2 h3
    fin_cases hmem <;> exact convert_suffix h1 h2 h3 (by rfl)
  · intro d h1 h2 h3
    exact convert_suffix h1 h2 h3 (by rfl)

/-- C1 witness: `'12 FT'` converted to `'M'` yields `12 * 0.3048`. -/
theorem C1_number_with_suffix_converts_witness :
    ((("M").toList, ("FT").toList) ∈ sufCases) ∧
    convert_value_to_metric (.str (("12 FT").toList)) (("M").toList) =
      .num (numValOf (("12").toList) * schemaFactor (("M").toList) (("FT").toList)) :=
  ⟨by decide, C1_number_with_suffix_converts.1 (("M").toList) (("FT").toList) (("12").toList)
    (by decide) (by decide) (by decide) (by decide)⟩

/-- C1 counterexample: `'1 FT3'` with output unit `'M3'` yields `1`,
not `1 * 0.028316847` as the claim states. -/
theorem C1_counterexample :
    convert_value_to_metric (.str (("1 FT3").toList)) (("M3").toList) = .num 1 ∧
    convert_value_to_metric (.str (("1 FT3").toList)) (("M3").toList) ≠
      .num (1 * 0.028316847) := by
  have h : convert_value_to_metric (.str (("1 FT3").toList)) (("M3").toList) =
      .num (numValOf (("1").toList) * schemaFactor (("M3").toList) (("FT").toList)) := by rfl
  have h2 : schemaFactor (("M3").toList) (("FT").toList) = 1 := by rfl
  have h3 : numValOf (("1").toList) = 1 := by
    simp [numValOf, intPartVal, fracPartVal, digitVal, isDigitCh,
      List.takeWhile_cons, List.dropWhile_cons]
  rw [h, h2, h3]
  refine ⟨by rw [mul_one], ?_⟩
  intro hcontra
  rw [mul_one] at hcontra
  injection hcontra with hc
  norm_num at hc

/-- C7 (amended): `convert_value_to_metric` is total (every exception
path in the source is caught); it returns `None` for `None`; when the
input parses as no float and contains no digit-or-dot run at all, the
input is returned unchanged; but when a digit-or-dot run exists that
itself fails to parse (e.g. `'.'`), the extracted run — not the
original input — is returned, because the source overwrites
`inputValue` before the failing parse. -/
theorem C7_total_with_fallback :
    (∀ u, convert_value_to_metric .pynone u = .pynone)
    ∧ (∀ s u, pyFloat s = none → firstNumRun s = none →
        convert_value_to_metric (.str s) u = .str s)
    ∧ (∀ s u run, pyFloat s = none → firstNumRun s = some run → pyFloat run = none →
        convert_value_to_metric (.str s) u = .str run) := by
  refine ⟨fun u => rfl, ?_, ?_⟩
  · intro s u h1 h2
    simp only [convert_value_to_metric, h1, h2, Option.getD_none]
  · intro s u run h1 h2 h3
    simp only [convert_value_to_metric, h1, h2, Option.getD_some, h3]

/-- C7 witness: `'ABC'` (no digits) is returned unchanged; `'. FT'`
exercises the extracted-run branch. -/
theorem C7_total_with_fallback_witness :
    (pyFloat (("ABC").toList) = none ∧ firstNumRun (("ABC").toList) = none ∧
      convert_value_to_metric (.str (("ABC").toList)) (("M").toList) = .str (("ABC").toList)) ∧
    convert_value_to_metric (.str ((". FT").toList)) (("M").toList) = .str ((".").toList) :=
  ⟨⟨by decide, by decide,
      C7_total_with_fallback.2.1 (("ABC").toList) (("M").toList) (by decide) (by decide)⟩,
    C7_total_with_fallback.2.2 ((". FT").toList) (("M").toList) ((".").toList)
      (by decide) (by decide) (by decide)⟩

/-- C7 counterexample: on `'. FT'` the fallback does not return the
input unchanged — it returns the extracted run `'.'`. -/
theorem C7_counterexample :
    convert_value_to_metric (.str ((". FT").toList)) (("M").toList) ≠ .str ((". FT").toList) ∧
    convert_value_to_metric (.str ((". FT").toList)) (("M").toList) = .str ((".").toList) := by
  constructor
  · decide
  · decide

theorem classifyUpper_spec (e : List Char) :
    classifyUpper e ∈ [("FT").toList, ("IN").toList, ("MM").toList, ("CM").toList,
      ("M").toList, ("IP").toList, ("SI").toList] ∧ classifyUpper e ≠ ("FT3").toList := by
  unfold classifyUpper
  split_ifs with h1 h2 h3 h4 h5 h6 h7
  · exact ⟨by decide, by decide⟩
  · exact ⟨by decide, by decide⟩
  · exact ⟨by decide, by decide⟩
  · exact ⟨by decide, by decide⟩
  · exact ⟨by decide, by decide⟩
  · exact ⟨by decide, by decide⟩
  · exfalso
    have h7' : (("FT3").toList) <:+: e := of_decide_eq_true h7
    have hsub : (("FT").toList) <:+: (("FT3").toList) := by decide
    have hFT : pyIn (("FT").toList) e = true := decide_eq_true (hsub.trans h7')
    rw [Bool.or_eq_true] at h1
    exact h1 (Or.inl hFT)
  · exact ⟨by decide, by decide⟩

/-- C9: `find_input_string` always returns one of `FT`, `IN`, `MM`,
`CM`, `M`, `IP`, `SI` and never `FT3` (any string containing `FT3`
already matches the earlier `FT` branch), so the `FT3` factor of the
`M3` schema row is unreachable through it. -/
theorem C9_find_input_string_range (s : List Char) :
    find_input_string s ∈ [("FT").toList, ("IN").toList, ("MM").toList, ("CM").toList,
      ("M").toList, ("IP").toList, ("SI").toList] ∧
    find_input_string s ≠ ("FT3").toList :=
  classifyUpper_spec (s.map upperChar)

/-- C10: when the whole string fails to parse as a float but conversion
succeeds, the numeric result comes from the first maximal digit-or-dot
run (so a leading minus sign is discarded) and is non-negative. -/
theorem C10_result_from_first_run_nonneg :
    ∀ s u q, pyFloat s = none → convert_value_to_metric (.str s) u = .num q →
      ∃ run, firstNumRun s = some run ∧
        (∃ r, pyFloat run = some r ∧ q = r * schemaFactor u (find_input_string s) ∧ 0 ≤ r) ∧
        0 ≤ q := by
  intro s u q h1 h2
  simp only [convert_value_to_metric, h1] at h2
  cases hrun : firstNumRun s with
  | none =>
    rw [hrun, Option.getD_none, h1] at h2
    exact absurd h2 (by simp)
  | some run =>
    rw [hrun, Option.getD_some] at h2
    cases hpr : pyFloat run with
    | none =>
      rw [hpr] at h2
      exact absurd h2 (by simp)
    | some r =>
      rw [hpr] at h2
      injection h2 with h2
      obtain ⟨hne, hall⟩ := firstNumRun_shape hrun
      have hr0 : 0 ≤ r := by
        cases run with
        | nil => exact absurd rfl hne
        | cons c rr =>
          rw [List.all_cons, Bool.and_eq_true] at hall
          exact pyFloat_nonneg_of_head hall.1 hpr
      refine ⟨run, rfl, ⟨r, hpr, h2.symm, hr0⟩, ?_⟩
      rw [← h2]
      exact mul_nonneg hr0 (schemaFactor_nonneg _ _)

/-- C10 witness: `'-12 FT'` converted to `'M'` — the minus sign is
discarded and the result is non-negative. -/
theorem C10_result_from_first_run_nonneg_witness :
    pyFloat (("-12 FT").toList) = none ∧
    (∃ run, firstNumRun (("-12 FT").toList) = some run ∧
      (∃ r, pyFloat run = some r ∧
        numValOf (("12").toList) *
            schemaFactor (("M").toList) (find_input_string (("-12 FT").toList)) =
          r * schemaFactor (("M").toList) (find_input_string (("-12 FT").toList)) ∧ 0 ≤ r) ∧
      0 ≤ numValOf (("12").toList) *
            schemaFactor (("M").toList) (find_input_string (("-12 FT").toList))) :=
  ⟨by decide,
    C10_result_from_first_run_nonneg (("-12 FT").toList) (("M").toList) _ (by decide) (by rfl)⟩

/-! ## Python objects, dicts and `add_to_HB_model` -/

/-- A Python object as the `user_data` machinery sees it: either an
opaque non-dict value (`atom`; these model arbitrary truthy non-dict
objects) or a string-keyed dict with insertion order. -/
inductive PyObj where
  | atom : ℕ → PyObj
  | dict : List (List Char × PyObj) → PyObj

/-- The exceptions relevant to `add_to_HB_model`: `KeyError` (the only
kind its `except` clauses catch) and everything else (`TypeError`,
`AttributeError`, …), which escapes. -/
inductive PyErr where
  | keyError : PyErr
  | otherError : PyErr
deriving DecidableEq

/-- Python dict lookup (by key, insertion list). -/
def dictLookup (es : List (List Char × PyObj)) (k : List Char) : Option PyObj :=
  List.lookup k es

/-- Python in-place dict assignment `d[k] = v`: replace the value of an
existing key in place, else append (insertion-order semantics). -/
def dictSet (es : List (List Char × PyObj)) (k : List Char) (v : PyObj) :
    List (List Char × PyObj) :=
  match es with
  | [] => [(k, v)]
  | (k0, v0) :: rest => if k0 = k then (k0, v) :: rest else (k0, v0) :: dictSet rest k v

/-- Python `d.update(other)` on the entry lists: set every key of
`other` in order. -/
def dictUpdate (es os : List (List Char × PyObj)) : List (List Char × PyObj) :=
  os.foldl (fun acc kv => dictSet acc kv.1 kv.2) es

/-- Python subscript read `obj[k]`: `KeyError` on a missing dict key,
non-`KeyError` (`TypeError`) when `obj` is not a dict. -/
def getItem : PyObj → List Char → Except PyErr PyObj
  | .dict es, k =>
    match dictLookup es k with
    | some v => .ok v
    | none => .error .keyError
  | .atom _, _ => .error .otherError

/-- Python subscript write `obj[k] = v` (as a value transformer):
non-`KeyError` (`TypeError`) when `obj` is not a dict. -/
def setItem : PyObj → List Char → PyObj → Except PyErr PyObj
  | .dict es, k, v => .ok (.dict (dictSet es k v))
  | .atom _, _, _ => .error .otherError

/-- Python `obj.update(other)` (as a value transformer): non-`KeyError`
(`AttributeError`/`TypeError`) when either side is not a dict. -/
def updateObj : PyObj → PyObj → Except PyErr PyObj
  | .dict es, .dict os => .ok (.dict (dictUpdate es os))
  | .dict _, .atom _ => .error .otherError
  | .atom _, _ => .error .otherError

/-- Python truthiness of the `user_data` slot: `None` and the empty
dict are falsy; non-empty dicts are truthy; atoms model truthy opaque
objects. -/
def udTruthy : Option PyObj → Bool
  | none => false
  | some (.dict []) => false
  | some (.dict (_ :: _)) => true
  | some (.atom _) => true

/-- A Honeybee model as `add_to_HB_model` sees it: only its `user_data`
slot matters. -/
structure HBModel where
  user_data : Option PyObj

/-- `helpers.add_to_HB_model`.  `deepcopy` is the identity under value
semantics.  The outer `try` body dispatches on `_write`; its
`except KeyError` handler retries with `user_data['phpp'].update(...)`,
whose own `except KeyError` replaces `user_data` wholesale with
`{'phpp': {key: d}}`.  Exceptions other than `KeyError` raised in
either `try` body escape the function (`.error`). -/
def add_to_HB_model (m : HBModel) (key : List Char) (d : PyObj) (write : List Char) :
    Except PyErr HBModel :=
  let user_data := m.user_data
  if udTruthy user_data = false then
    .ok ⟨some (.dict [((("phpp").toList), .dict [(key, d)])])⟩
  else
    match user_data with
    | some ud =>
      let tryBody : Except PyErr PyObj :=
        if write = ("update").toList then
          match getItem ud (("phpp").toList) with
          | .error e => .error e
          | .ok phpp =>
            match getItem phpp key with
            | .error e => .error e
            | .ok cur =>
              match updateObj cur d with
              | .error e => .error e
              | .ok newCur =>
                match setItem phpp key newCur with
                | .error e => .error e
                | .ok phpp2 => setItem ud (("phpp").toList) phpp2
        else if write = ("overwrite").toList then
          match getItem ud (("phpp").toList) with
          | .error e => .error e
          | .ok phpp =>
            match setItem phpp key d with
            | .error e => .error e
            | .ok phpp2 => setItem ud (("phpp").toList) phpp2
        else .ok ud
      let handler : Except PyErr PyObj :=
        match getItem ud (("phpp").toList) with
        | .ok phpp =>
          match updateObj phpp (.dict [(key, d)]) with
          | .ok phpp2 => setItem ud (("phpp").toList) phpp2
          | .error e => .error e
        | .error .keyError => .ok (.dict [((("phpp").toList), .dict [(key, d)])])
        | .error e => .error e
      match tryBody with
      | .ok ud2 => .ok ⟨some ud2⟩
      | .error .keyError =>
        match handler with
        | .ok ud2 => .ok ⟨some ud2⟩
        | .error e => .error e
      | .error e => .error e
    | none => .error .otherError

theorem dictSet_lookup_self (es : List (List Char × PyObj)) (k : List Char) (v : PyObj) :
    dictLookup (dictSet es k v) k = some v := by
  induction es with
  | nil => simp [dictSet, dictLookup, List.lookup_cons]
  | cons e es ih =>
    obtain ⟨k0, v0⟩ := e
    unfold dictSet
    by_cases h : k0 = k
    · subst h
      simp [dictLookup, List.lookup_cons]
    · rw [if_neg h]
      unfold dictLookup at ih ⊢
      rw [List.lookup_cons]
      have : (k == k0) = false := by
        rw [beq_eq_false_iff_ne]
        exact fun hc => h hc.symm
      rw [this]
      exact ih

theorem dictSet_lookup_other (es : List (List Char × PyObj)) (k k' : List Char) (v : PyObj)
    (h : k' ≠ k) : dictLookup (dictSet es k v) k' = dictLookup es k' := by
  induction es with
  | nil =>
    simp only [dictSet, dictLookup, List.lookup_cons]
    rw [show (k' == k) = false from beq_eq_false_iff_ne.mpr h]
  | cons e es ih =>
    obtain ⟨k0, v0⟩ := e
    unfold dictSet
    by_cases h0 : k0 = k
    · subst h0
      rw [if_pos rfl]
      unfold dictLookup
      rw [List.lookup_cons, List.lookup_cons]
      rw [show (k' == k0) = false from beq_eq_false_iff_ne.mpr h]
    · rw [if_neg h0]
      unfold dictLookup at ih ⊢
      rw [List.lookup_cons, List.lookup_cons]
      cases hk : k' == k0
      · exact ih
      · rfl

/-- C3: with `_write='overwrite'`, `add_to_HB_model` always produces a
model whose `user_data` holds a `'phpp'` dict mapping `key` to `d`,
whether `user_data` was `None`, a dict without `'phpp'`, or a dict with
a `'phpp'` dict. -/
theorem C3_overwrite_always_sets :
    ∀ (m : HBModel) (key : List Char) (d : PyObj),
      (m.user_data = none ∨
        (∃ es, m.user_data = some (.dict es) ∧ dictLookup es (("phpp").toList) = none) ∨
        (∃ es ps, m.user_data = some (.dict es) ∧
          dictLookup es (("phpp").toList) = some (.dict ps))) →
      ∃ m2 es2 ps2, add_to_HB_model m key d (("overwrite").toList) = .ok m2 ∧
        m2.user_data = some (.dict es2) ∧
        dictLookup es2 (("phpp").toList) = some (.dict ps2) ∧
        dictLookup ps2 key = some d := by
  intro m key d h
  obtain ⟨ud⟩ := m
  rcases h with hud | ⟨es, hud, hlk⟩ | ⟨es, ps, hud, hlk⟩
  · simp only at hud
    subst hud
    refine ⟨⟨some (.dict [((("phpp").toList), PyObj.dict [(key, d)])])⟩,
      [((("phpp").toList), PyObj.dict [(key, d)])], [(key, d)], rfl, rfl, ?_, ?_⟩
    · simp [dictLookup, List.lookup_cons]
    · simp [dictLookup, List.lookup_cons]
  · simp only at hud
    subst hud
    cases es with
    | nil =>
      refine ⟨⟨some (.dict [((("phpp").toList), PyObj.dict [(key, d)])])⟩,
        [((("phpp").toList), PyObj.dict [(key, d)])], [(key, d)], rfl, rfl, ?_, ?_⟩
      · simp [dictLookup, List.lookup_cons]
      · simp [dictLookup, List.lookup_cons]
    | cons e0 es0 =>
      have hlk2 : dictLookup (e0 :: es0) (['p', 'h', 'p', 'p']) = none := hlk
      refine ⟨⟨some (.dict [((("phpp").toList), PyObj.dict [(key, d)])])⟩,
        [((("phpp").toList), PyObj.dict [(key, d)])], [(key, d)], ?_, rfl, ?_, ?_⟩
      · simp [add_to_HB_model, udTruthy, getItem, hlk2]
      · simp [dictLookup, List.lookup_cons]
      · simp [dictLookup, List.lookup_cons]
  · simp only at hud
    subst hud
    cases es with
    | nil => exact absurd hlk (by simp [dictLookup])
    | cons e0 es0 =>
      have hlk2 : dictLookup (e0 :: es0) (['p', 'h', 'p', 'p']) = some (.dict ps) := hlk
      refine ⟨⟨some (.dict (dictSet (e0 :: es0) (("phpp").toList)
          (.dict (dictSet ps key d))))⟩,
        dictSet (e0 :: es0) (("phpp").toList) (.dict (dictSet ps key d)),
        dictSet ps key d, ?_, rfl, ?_, ?_⟩
      · simp [add_to_HB_model, udTruthy, getItem, hlk2, setItem]
      · exact dictSet_lookup_self _ _ _
      · exact dictSet_lookup_self _ _ _

/-- C3 witness: a non-empty `user_data` dict without `'phpp'`. -/
theorem C3_overwrite_always_sets_witness :
    ∃ m2 es2 ps2,
      add_to_HB_model ⟨some (.dict [((("a").toList), PyObj.atom 0)])⟩ (("win").toList)
          (.atom 7) (("overwrite").toList) = .ok m2 ∧
      m2.user_data = some (.dict es2) ∧
      dictLookup es2 (("phpp").toList) = some (.dict ps2) ∧
      dictLookup ps2 (("win").toList) = some (.atom 7) :=
  C3_overwrite_always_sets _ _ _
    (Or.inr (Or.inl ⟨[((("a").toList), PyObj.atom 0)], rfl, rfl⟩))

theorem add_ok_frame {m : HBModel} {key : List Char} {d : PyObj} {write : List Char}
    {es : List (List Char × PyObj)} {p : PyObj} {m' : HBModel}
    (hud : m.user_data = some (.dict es))
    (hp : dictLookup es (("phpp").toList) = some p)
    (hok : add_to_HB_model m key d write = .ok m') :
    m'.user_data = some (.dict es) ∨
      ∃ x, m'.user_data = some (.dict (dictSet es (("phpp").toList) x)) := by
  obtain ⟨ud⟩ := m
  simp only at hud
  subst hud
  cases es with
  | nil => exact absurd hp (by simp [dictLookup])
  | cons e0 es0 =>
    have hp2 : dictLookup (e0 :: es0) (['p', 'h', 'p', 'p']) = some p := hp
    by_cases hw1 : write = ("update").toList
    · subst hw1
      cases p with
      | atom n =>
        have hR : add_to_HB_model ⟨some (.dict (e0 :: es0))⟩ key d (("update").toList) =
            .error .otherError := by
          simp [add_to_HB_model, udTruthy, getItem, hp2]
        rw [hR] at hok
        exact absurd hok (by simp)
      | dict ps =>
        have hub : updateObj (.dict ps) (.dict [(key, d)]) =
            .ok (.dict (dictUpdate ps [(key, d)])) := rfl
        cases hcur : dictLookup ps key with
        | none =>
          have hR : add_to_HB_model ⟨some (.dict (e0 :: es0))⟩ key d (("update").toList) =
              .ok ⟨some (.dict (dictSet (e0 :: es0) (("phpp").toList)
                (.dict (dictUpdate ps [(key, d)]))))⟩ := by
            simp [add_to_HB_model, udTruthy, getItem, hp2, hcur, hub, setItem]
          rw [hR] at hok
          injection hok with hok
          exact Or.inr ⟨_, by rw [← hok]⟩
        | some cur =>
          cases hupd : updateObj cur d with
          | error e =>
            cases e with
            | keyError =>
              have hR : add_to_HB_model ⟨some (.dict (e0 :: es0))⟩ key d (("update").toList) =
                  .ok ⟨some (.dict (dictSet (e0 :: es0) (("phpp").toList)
                    (.dict (dictUpdate ps [(key, d)]))))⟩ := by
                simp [add_to_HB_model, udTruthy, getItem, hp2, hcur, hupd, hub, setItem]
              rw [hR] at hok
              injection hok with hok
              exact Or.inr ⟨_, by rw [← hok]⟩
            | otherError =>
              have hR : add_to_HB_model ⟨some (.dict (e0 :: es0))⟩ key d (("update").toList) =
                  .error .otherError := by
                simp [add_to_HB_model, udTruthy, getItem, hp2, hcur, hupd]
              rw [hR] at hok
              exact absurd hok (by simp)
          | ok newCur =>
            have hR : add_to_HB_model ⟨some (.dict (e0 :: es0))⟩ key d (("update").toList) =
                .ok ⟨some (.dict (dictSet (e0 :: es0) (("phpp").toList)
                  (.dict (dictSet ps key newCur))))⟩ := by
              simp [add_to_HB_model, udTruthy, getItem, hp2, hcur, hupd, setItem]
            rw [hR] at hok
            injection hok with hok
            exact Or.inr ⟨_, by rw [← hok]⟩
    · by_cases hw2 : write = ("overwrite").toList
      · subst hw2
        cases p with
        | atom n =>
          have hR : add_to_HB_model ⟨some (.dict (e0 :: es0))⟩ key d (("overwrite").toList) =
              .error .otherError := by
            simp [add_to_HB_model, udTruthy, getItem, hp2, setItem]
          rw [hR] at hok
          exact absurd hok (by simp)
        | dict ps =>
          have hR : add_to_HB_model ⟨some (.dict (e0 :: es0))⟩ key d (("overwrite").toList) =
              .ok ⟨some (.dict (dictSet (e0 :: es0) (("phpp").toList)
                (.dict (dictSet ps key d))))⟩ := by
            simp [add_to_HB_model, udTruthy, getItem, hp2, setItem]
          rw [hR] at hok
          injection hok with hok
          exact Or.inr ⟨_, by rw [← hok]⟩
      · have hw1b : ¬ write = ['u', 'p', 'd', 'a', 't', 'e'] := hw1
        have hw2b : ¬ write = ['o', 'v', 'e', 'r', 'w', 'r', 'i', 't', 'e'] := hw2
        have hR : add_to_HB_model ⟨some (.dict (e0 :: es0))⟩ key d write =
            .ok ⟨some (.dict (e0 :: es0))⟩ := by
          simp [add_to_HB_model, udTruthy, hw1b, hw2b]
        rw [hR] at hok
        injection hok with hok
        exact Or.inl (by rw [← hok])

/-- C4 (amended): when `user_data` already contains a `'phpp'` entry,
`add_to_HB_model` modifies only that entry — every other key keeps its
value.  (When `'phpp'` is absent from a non-empty `user_data` dict, the
dict is instead replaced wholesale by `{'phpp': {key: d}}`, dropping
all other keys; see the counterexample.) -/
theorem C4_frame_requires_phpp :
    ∀ (m : HBModel) (key k' : List Char) (d : PyObj) (write : List Char)
      (es : List (List Char × PyObj)) (p : PyObj) (m' : HBModel),
      m.user_data = some (.dict es) →
      dictLookup es (("phpp").toList) = some p →
      k' ≠ ("phpp").toList →
      add_to_HB_model m key d write = .ok m' →
      ∃ es2, m'.user_data = some (.dict es2) ∧ dictLookup es2 k' = dictLookup es k' := by
  intro m key k' d write es p m' hud hp hk hok
  rcases add_ok_frame hud hp hok with h | ⟨x, h⟩
  · exact ⟨es, h, rfl⟩
  · exact ⟨_, h, dictSet_lookup_other _ _ _ _ hk⟩

/-- C4 witness: `user_data = {'foo': 1, 'phpp': {}}` keeps `'foo'`. -/
theorem C4_frame_requires_phpp_witness :
    ∃ es2, (⟨some (.dict [((("foo").toList), PyObj.atom 1),
        ((("phpp").toList), PyObj.dict [((("k").toList), PyObj.dict [])])])⟩ : HBModel).user_data
        = some (.dict es2) ∧
      dictLookup es2 (("foo").toList) =
        dictLookup [((("foo").toList), PyObj.atom 1),
          ((("phpp").toList), PyObj.dict [])] (("foo").toList) :=
  C4_frame_requires_phpp
    ⟨some (.dict [((("foo").toList), PyObj.atom 1), ((("phpp").toList), PyObj.dict [])])⟩
    (("k").toList) (("foo").toList) (.dict []) (("overwrite").toList)
    _ (.dict []) _ rfl rfl (by decide) rfl

/-- C4 counterexample: `user_data = {'foo': 1}` (non-empty, no
`'phpp'`) — after the call `'foo'` is gone, so a key other than
`'phpp'` did not keep its value. -/
theorem C4_counterexample :
    add_to_HB_model ⟨some (.dict [((("foo").toList), PyObj.atom 1)])⟩ (("k").toList)
        (.dict []) (("overwrite").toList) =
      .ok ⟨some (.dict [((("phpp").toList), PyObj.dict [((("k").toList), PyObj.dict [])])])⟩ ∧
    dictLookup [((("phpp").toList), PyObj.dict [((("k").toList), PyObj.dict [])])]
      (("foo").toList) = none ∧
    dictLookup [((("foo").toList), PyObj.atom 1)] (("foo").toList) = some (.atom 1) ∧
    (none : Option PyObj) ≠ some (.atom 1) :=
  ⟨rfl, rfl, rfl, by simp⟩

/-! ## `LBT2PH_ApplyWindowShadingFactors` and `LBT2PH_CreateWindowReveals`

Rooms are modelled as lists of faces, each face a list of aperture
ids into an explicit heap (`List Aperture`), so that duplication
versus in-place mutation of host objects is observable.  The methods
of `LBT2PH.windows.PHPP_Window` (`from_dict`, `to_dict`,
`reveal_geometry`, `inset_window_surface`) live in repository code not
available here; they are taken as arbitrary function parameters
(`none` standing for a raised `KeyError`/`TypeError`, the kinds the
components catch), so every theorem below holds for any behaviour of
that code. -/

/-- The `Params` namedtuple (`winter`, `summer`) of
`LBT2PH_ApplyWindowShadingFactors`. -/
structure Params where
  winter : ℚ
  summer : ℚ

/-- The factors computed for loop index `i`: entry `i` of the factor
list when it exists (`float` of a number is itself), the `0.75` default
when indexing raises `IndexError`. -/
def shadingEntry (ws ss : List ℚ) (i : ℕ) : Params :=
  ⟨(ws.get? i).getD 0.75, (ss.get? i).getD 0.75⟩

/-- The `param_dict`-building loop of
`LBT2PH_ApplyWindowShadingFactors` (lines 59-77), as its insertion
sequence `(window_name, Params)` in loop order. -/
def paramEntries (names : List (List Char)) (ws ss : List ℚ) : List (List Char × Params) :=
  names.enum.map (fun p => (p.2, shadingEntry ws ss p.1))

/-- `param_dict.get(name, None)`: Python dict assignment makes the
last insertion for a name win. -/
def param_lookup (names : List (List Char)) (ws ss : List ℚ) (n : List Char) : Option Params :=
  List.lookup n (paramEntries names ws ss).reverse

/-- The guard of the length-mismatch warning (line 52). -/
def lengths_mismatch (names : List (List Char)) (ws ss : List ℚ) : Bool :=
  decide (names.length ≠ ws.length) || decide (names.length ≠ ss.length)

/-- A Honeybee aperture: display name and `user_data` slot. -/
structure Aperture where
  display_name : List Char
  user_data : Option PyObj

/-- Heap of aperture objects, addressed by id. -/
abbrev Heap : Type := List Aperture

/-- A room: faces, each holding the ids of its apertures. -/
abbrev Room : Type := List (List ℕ)

/-- Placeholder for an out-of-range read (never hit on valid input). -/
def defaultAperture : Aperture := ⟨[], none⟩

/-- Allocate copies of the apertures `aids` (contents read from
`heap0`) at the end of heap `h`, returning the new heap and fresh
ids. -/
def dupAps (heap0 : Heap) : Heap → List ℕ → Heap × List ℕ
  | h, [] => (h, [])
  | h, aid :: rest =>
    let h2 := h ++ [heap0.getD aid defaultAperture]
    let step := dupAps heap0 h2 rest
    (step.1, h.length :: step.2)

/-- Allocate copies of all apertures of the faces `fs`. -/
def dupFaces (heap0 : Heap) : Heap → List (List ℕ) → Heap × Room
  | h, [] => (h, [])
  | h, f :: fs =>
    let stepF := dupAps heap0 h f
    let stepR := dupFaces heap0 stepF.1 fs
    (stepR.1, stepF.2 :: stepR.2)

/-- Model of honeybee's `Room.duplicate()` (external library).
Modelled from the spec: the spec's concurrency section relies on
"simple object copies", i.e. duplication is a deep copy that allocates
fresh objects and leaves the originals untouched. -/
def duplicateRoom (heap : Heap) (room : Room) : Heap × Room :=
  dupFaces heap heap room

/-- The PHPP window object rebuilt from an aperture's `'phpp'` data.
Only the fields the shading component assigns are explicit; `core`
stands for all remaining state. -/
structure PHPP_Window where
  core : ℕ
  shading_factor_winter : ℚ
  shading_factor_summer : ℚ
  shading_dimensions : Option ℕ

/-- `aperture.user_data['phpp']` with the caught exceptions mapped to
`none`: `TypeError` when `user_data` is `None` or not a dict,
`KeyError` when the key is missing. -/
def getPhppData : Option PyObj → Option PyObj
  | none => none
  | some (.atom _) => none
  | some (.dict es) => dictLookup es (("phpp").toList)

/-- The per-aperture body of the shading component's room loop (lines
86-114): rebuild the window from the `'phpp'` data (skip on failure),
look up its factors by display name (skip when absent), set the three
shading fields and repack `{'phpp': to_dict()}` onto the aperture. -/
def applyFactorsAperture (fromDict : PyObj → Option PHPP_Window)
    (toDict : PHPP_Window → PyObj) (pd : List Char → Option Params)
    (heap : Heap) (aid : ℕ) : Heap :=
  let ap := List.getD heap aid defaultAperture
  match getPhppData ap.user_data with
  | none => heap
  | some v =>
    match fromDict v with
    | none => heap
    | some w =>
      match pd ap.display_name with
      | none => heap
      | some f =>
        let w2 := { w with shading_factor_winter := f.winter,
                           shading_factor_summer := f.summer,
                           shading_dimensions := none }
        List.set heap aid { ap with user_data := some (.dict [((("phpp").toList), toDict w2)]) }

/-- One room of the shading component: duplicate, then update every
aperture of the duplicate. -/
def applyFactorsRoom (fromDict : PyObj → Option PHPP_Window) (toDict : PHPP_Window → PyObj)
    (pd : List Char → Option Params) (heap : Heap) (room : Room) : Heap × Room :=
  let dup := duplicateRoom heap room
  let h2 := dup.2.foldl
    (fun h face => face.foldl (fun h aid => applyFactorsAperture fromDict toDict pd h aid) h)
    dup.1
  (h2, dup.2)

/-- `LBT2PH_ApplyWindowShadingFactors` as a whole: the warning flag,
the final heap, and the `HB_rooms_` output list. -/
def applyShadingComponent (fromDict : PyObj → Option PHPP_Window) (toDict : PHPP_Window → PyObj)
    (names : List (List Char)) (ws ss : List ℚ) (heap : Heap) (rooms : List Room) :
    Bool × Heap × List Room :=
  (lengths_mismatch names ws ss,
   rooms.foldl
     (fun (acc : Heap × List Room) room =>
       let step := applyFactorsRoom fromDict toDict (param_lookup names ws ss) acc.1 room
       (step.1, acc.2 ++ [step.2]))
     (heap, []))

/-- The guarded `try` body of `LBT2PH_CreateWindowReveals` (lines
77-88) for one aperture: `from_dict` of the `'phpp'` data, then
`reveal_geometry`, then `inset_window_surface`; `none` anywhere (a
caught `KeyError`/`TypeError`) means the aperture contributes nothing
to `window_names_`/`window_surfaces_`. -/
def revealAperture (fromDict : PyObj → Option PHPP_Window)
    (revealGeometry : PHPP_Window → Option (List ℕ))
    (insetSurface : PHPP_Window → Option ℕ) (ap : Aperture) : Option ℕ :=
  match getPhppData ap.user_data with
  | none => none
  | some v =>
    match fromDict v with
    | none => none
    | some w =>
      match revealGeometry w with
      | none => none
      | some _ => insetSurface w

/-- `LBT2PH_CreateWindowReveals`: the `window_names_` and
`window_surfaces_` outputs accumulated over the room / face / aperture
loops. -/
def createWindowReveals (fromDict : PyObj → Option PHPP_Window)
    (revealGeometry : PHPP_Window → Option (List ℕ))
    (insetSurface : PHPP_Window → Option ℕ) (heap : Heap) (rooms : List Room) :
    List (List Char) × List ℕ :=
  rooms.foldl
    (fun acc room =>
      room.foldl
        (fun acc face =>
          face.foldl
            (fun (acc : List (List Char) × List ℕ) aid =>
              let ap := List.getD heap aid defaultAperture
              match revealAperture fromDict revealGeometry insetSurface ap with
              | some srf => (acc.1 ++ [ap.display_name], acc.2 ++ [srf])
              | none => acc)
            acc)
        acc)
    ([], [])

/-- All apertures of the rooms, in room / face / aperture iteration
order. -/
def roomApertures (heap : Heap) (rooms : List Room) : List Aperture :=
  rooms.flatMap (fun room => room.flatMap (fun face =>
    face.map (fun aid => List.getD heap aid defaultAperture)))

/-- C2: entry `i` of the `param_dict`-building loop pairs window name
`i` with the factors: the listed float when the factor list has an
entry at `i`, the `0.75` default when it does not. -/
theorem C2_shading_defaults :
    ∀ (names : List (List Char)) (ws ss : List ℚ) (i : ℕ) (h : i < names.length),
      (paramEntries names ws ss).get? i = some (names.get ⟨i, h⟩, shadingEntry ws ss i) ∧
      (ws.get? i = none → (shadingEntry ws ss i).winter = 0.75) ∧
      (∀ x, ws.get? i = some x → (shadingEntry ws ss i).winter = x) ∧
      (ss.get? i = none → (shadingEntry ws ss i).summer = 0.75) ∧
      (∀ x, ss.get? i = some x → (shadingEntry ws ss i).summer = x) := by
  intro names ws ss i h
  refine ⟨?_, ?_, ?_, ?_, ?_⟩
  · rw [paramEntries, List.get?_map, List.enum_get?, List.get?_eq_get h]
    rfl
  · intro hnone; rw [List.get?_eq_getElem?] at hnone; simp [shadingEntry, hnone]
  · intro x hx; rw [List.get?_eq_getElem?] at hx; simp [shadingEntry, hx]
  · intro hnone; rw [List.get?_eq_getElem?] at hnone; simp [shadingEntry, hnone]
  · intro x hx; rw [List.get?_eq_getElem?] at hx; simp [shadingEntry, hx]

/-- C2 witness: one window name, an empty winter list (default 0.75)
and a one-entry summer list (value kept). -/
theorem C2_shading_defaults_witness :
    (paramEntries [("w1").toList] [] [(0.5 : ℚ)]).get? 0 =
      some ((("w1").toList), shadingEntry [] [(0.5 : ℚ)] 0) ∧
    (([] : List ℚ).get? 0 = none → (shadingEntry [] [(0.5 : ℚ)] 0).winter = 0.75) ∧
    (∀ x, ([] : List ℚ).get? 0 = some x → (shadingEntry [] [(0.5 : ℚ)] 0).winter = x) ∧
    (([(0.5 : ℚ)]).get? 0 = none → (shadingEntry [] [(0.5 : ℚ)] 0).summer = 0.75) ∧
    (∀ x, ([(0.5 : ℚ)]).get? 0 = some x → (shadingEntry [] [(0.5 : ℚ)] 0).summer = x) :=
  C2_shading_defaults [("w1").toList] [] [(0.5 : ℚ)] 0 (by decide)

theorem shading_fold_length (fd : PyObj → Option PHPP_Window) (td : PHPP_Window → PyObj)
    (pd : List Char → Option Params) :
    ∀ (rooms : List Room) (acc : Heap × List Room),
      (rooms.foldl
        (fun (acc : Heap × List Room) room =>
          let step := applyFactorsRoom fd td pd acc.1 room
          (step.1, acc.2 ++ [step.2])) acc).2.length = acc.2.length + rooms.length := by
  intro rooms
  induction rooms with
  | nil => intro acc; simp
  | cons r rooms ih =>
    intro acc
    rw [List.foldl_cons, ih]
    simp
    omega

/-- C8: the length-mismatch warning fires iff `_window_names` differs
in length from either factor list, and even then the component still
builds the parameter entries (one per window name) and produces one
output room per input room. -/
theorem C8_warning_iff_mismatch :
    ∀ (fd : PyObj → Option PHPP_Window) (td : PHPP_Window → PyObj)
      (names : List (List Char)) (ws ss : List ℚ) (heap : Heap) (rooms : List Room),
      ((applyShadingComponent fd td names ws ss heap rooms).1 = true ↔
        (names.length ≠ ws.length ∨ names.length ≠ ss.length)) ∧
      (applyShadingComponent fd td names ws ss heap rooms).2.2.length = rooms.length ∧
      (paramEntries names ws ss).length = names.length := by
  intro fd td names ws ss heap rooms
  refine ⟨?_, ?_, ?_⟩
  · simp [applyShadingComponent, lengths_mismatch]
  · have := shading_fold_length fd td (param_lookup names ws ss) rooms (heap, [])
    simpa [applyShadingComponent] using this
  · simp [paramEntries]

theorem dupAps_spec (heap0 : Heap) :
    ∀ (l : List ℕ) (h : Heap),
      (∃ extra, (dupAps heap0 h l).1 = h ++ extra) ∧
      ∀ a ∈ (dupAps heap0 h l).2, h.length ≤ a := by
  intro l
  induction l with
  | nil => intro h; exact ⟨⟨[], by simp [dupAps]⟩, by simp [dupAps]⟩
  | cons aid rest ih =>
    intro h
    obtain ⟨⟨extra, hex⟩, hge⟩ := ih (h ++ [heap0.getD aid defaultAperture])
    constructor
    · refine ⟨[heap0.getD aid defaultAperture] ++ extra, ?_⟩
      show (dupAps heap0 (h ++ [heap0.getD aid defaultAperture]) rest).1 = _
      rw [hex, List.append_assoc]
    · intro a ha
      have ha2 : a = h.length ∨ a ∈ (dupAps heap0 (h ++ [heap0.getD aid defaultAperture]) rest).2 := by
        simpa [dupAps] using ha
      rcases ha2 with rfl | ha2
      · exact le_rfl
      · have := hge a ha2
        simp only [List.length_append, List.length_cons, List.length_nil] at this
        omega

theorem dupFaces_spec (heap0 : Heap) :
    ∀ (fs : List (List ℕ)) (h : Heap),
      (∃ extra, (dupFaces heap0 h fs).1 = h ++ extra) ∧
      ∀ f ∈ (dupFaces heap0 h fs).2, ∀ a ∈ f, h.length ≤ a := by
  intro fs
  induction fs with
  | nil => intro h; exact ⟨⟨[], by simp [dupFaces]⟩, by simp [dupFaces]⟩
  | cons f fs ih =>
    intro h
    obtain ⟨⟨e1, he1⟩, hge1⟩ := dupAps_spec heap0 f h
    obtain ⟨⟨e2, he2⟩, hge2⟩ := ih (dupAps heap0 h f).1
    constructor
    · refine ⟨e1 ++ e2, ?_⟩
      show (dupFaces heap0 (dupAps heap0 h f).1 fs).1 = _
      rw [he2, he1, List.append_assoc]
    · intro g hg a ha
      have hg2 : g = (dupAps heap0 h f).2 ∨ g ∈ (dupFaces heap0 (dupAps heap0 h f).1 fs).2 := by
        simpa [dupFaces] using hg
      rcases hg2 with rfl | hg2
      · exact hge1 a ha
      · have := hge2 g hg2 a ha
        rw [he1] at this
        simp only [List.length_append] at this
        omega

theorem applyFactorsAperture_length (fd : PyObj → Option PHPP_Window)
    (td : PHPP_Window → PyObj) (pd : List Char → Option Params) (heap : Heap) (aid : ℕ) :
    (applyFactorsAperture fd td pd heap aid).length = heap.length := by
  simp only [applyFactorsAperture]
  split
  · rfl
  · split
    · rfl
    · split
      · rfl
      · simp [List.length_set]

theorem applyFactorsAperture_get? (fd : PyObj → Option PHPP_Window)
    (td : PHPP_Window → PyObj) (pd : List Char → Option Params) (heap : Heap) (aid i : ℕ)
    (hi : i ≠ aid) :
    (applyFactorsAperture fd td pd heap aid).get? i = heap.get? i := by
  simp only [applyFactorsAperture]
  split
  · rfl
  · split
    · rfl
    · split
      · rfl
      · exact List.get?_set_ne _ _ (fun hc => hi hc.symm)

theorem faceFold_spec (fd : PyObj → Option PHPP_Window) (td : PHPP_Window → PyObj)
    (pd : List Char → Option Params) :
    ∀ (face : List ℕ) (h : Heap) (n0 : ℕ), (∀ a ∈ face, n0 ≤ a) →
      (∀ i, i < n0 →
        (face.foldl (fun h aid => applyFactorsAperture fd td pd h aid) h).get? i = h.get? i) ∧
      (face.foldl (fun h aid => applyFactorsAperture fd td pd h aid) h).length = h.length := by
  intro face
  induction face with
  | nil => intro h n0 _; exact ⟨fun i _ => rfl, rfl⟩
  | cons aid face ih =>
    intro h n0 hge
    have hge2 : ∀ a ∈ face, n0 ≤ a := fun a ha => hge a (List.mem_cons_of_mem _ ha)
    obtain ⟨ihg, ihl⟩ := ih (applyFactorsAperture fd td pd h aid) n0 hge2
    rw [List.foldl_cons]
    constructor
    · intro i hi
      rw [ihg i hi]
      have haid : n0 ≤ aid := hge aid (List.mem_cons_self _ _)
      exact applyFactorsAperture_get? fd td pd h aid i (by omega)
    · rw [ihl, applyFactorsAperture_length]

theorem facesFold_spec (fd : PyObj → Option PHPP_Window) (td : PHPP_Window → PyObj)
    (pd : List Char → Option Params) :
    ∀ (faces : List (List ℕ)) (h : Heap) (n0 : ℕ), (∀ f ∈ faces, ∀ a ∈ f, n0 ≤ a) →
      (∀ i, i < n0 →
        (faces.foldl (fun h face =>
          face.foldl (fun h aid => applyFactorsAperture fd td pd h aid) h) h).get? i = h.get? i) ∧
      (faces.foldl (fun h face =>
        face.foldl (fun h aid => applyFactorsAperture fd td pd h aid) h) h).length = h.length := by
  intro faces
  induction faces with
  | nil => intro h n0 _; exact ⟨fun i _ => rfl, rfl⟩
  | cons f fs ih =>
    intro h n0 hge
    obtain ⟨fg, fl⟩ := faceFold_spec fd td pd f h n0 (hge f (List.mem_cons_self _ _))
    obtain ⟨ihg, ihl⟩ := ih (f.foldl (fun h aid => applyFactorsAperture fd td pd h aid) h) n0
      (fun g hg => hge g (List.mem_cons_of_mem _ hg))
    rw [List.foldl_cons]
    exact ⟨fun i hi => by rw [ihg i hi, fg i hi], by rw [ihl, fl]⟩

theorem applyFactorsRoom_spec (fd : PyObj → Option PHPP_Window) (td : PHPP_Window → PyObj)
    (pd : List Char → Option Params) (heap : Heap) (room : Room) :
    (∀ i, i < heap.length →
      (applyFactorsRoom fd td pd heap room).1.get? i = heap.get? i) ∧
    heap.length ≤ (applyFactorsRoom fd td pd heap room).1.length ∧
    ∀ f ∈ (applyFactorsRoom fd td pd heap room).2, ∀ a ∈ f, heap.length ≤ a := by
  obtain ⟨⟨extra, hex⟩, hge⟩ := dupFaces_spec heap room heap
  have hge2 : ∀ f ∈ (duplicateRoom heap room).2, ∀ a ∈ f, heap.length ≤ a := hge
  have hex2 : (duplicateRoom heap room).1 = heap ++ extra := hex
  have hfaces := facesFold_spec fd td pd (duplicateRoom heap room).2
    (duplicateRoom heap room).1 heap.length hge2
  simp only [applyFactorsRoom]
  refine ⟨?_, ?_, hge2⟩
  · intro i hi
    rw [hfaces.1 i hi, hex2]
    exact List.get?_append hi
  · rw [hfaces.2, hex2]
    simp

theorem shading_fold_spec (fd : PyObj → Option PHPP_Window) (td : PHPP_Window → PyObj)
    (pd : List Char → Option Params) :
    ∀ (rooms : List Room) (acc : Heap × List Room) (n0 : ℕ), n0 ≤ acc.1.length →
      (∀ i, i < n0 →
        ((rooms.foldl
          (fun (acc : Heap × List Room) room =>
            let step := applyFactorsRoom fd td pd acc.1 room
            (step.1, acc.2 ++ [step.2])) acc).1.get? i = acc.1.get? i)) ∧
      n0 ≤ (rooms.foldl
          (fun (acc : Heap × List Room) room =>
            let step := applyFactorsRoom fd td pd acc.1 room
            (step.1, acc.2 ++ [step.2])) acc).1.length ∧
      (∀ r ∈ (rooms.foldl
          (fun (acc : Heap × List Room) room =>
            let step := applyFactorsRoom fd td pd acc.1 room
            (step.1, acc.2 ++ [step.2])) acc).2,
        r ∈ acc.2 ∨ ∀ f ∈ r, ∀ a ∈ f, n0 ≤ a) := by
  intro rooms
  induction rooms with
  | nil =>
    intro acc n0 hn
    exact ⟨fun i _ => rfl, hn, fun r hr => Or.inl hr⟩
  | cons room rooms ih =>
    intro acc n0 hn
    obtain ⟨hg, hl, hfr⟩ := applyFactorsRoom_spec fd td pd acc.1 room
    obtain ⟨ihg, ihl, ihm⟩ := ih
      ((applyFactorsRoom fd td pd acc.1 room).1, acc.2 ++ [(applyFactorsRoom fd td pd acc.1 room).2])
      n0 (le_trans hn hl)
    rw [List.foldl_cons]
    refine ⟨?_, ihl, ?_⟩
    · intro i hi
      rw [ihg i hi]
      exact hg i (by omega)
    · intro r hr
      rcases ihm r hr with hin | hfresh
      · rcases List.mem_append.mp hin with hin2 | hin2
        · exact Or.inl hin2
        · right
          rw [List.mem_singleton.mp hin2]
          intro f hf a ha
          exact le_trans hn (hfr f hf a ha)
      · exact Or.inr hfresh

/-- C5: `LBT2PH_ApplyWindowShadingFactors` operates on object copies:
every aperture object present before the run (any heap id below the
original heap length, hence in particular every aperture of every
input room) is unchanged afterwards, `user_data` included; the rooms
appended to `HB_rooms_` reference only freshly allocated objects (ids
at or above the original heap length, created by `duplicate()`); and
one room is appended per input room. -/
theorem C5_operates_on_copies :
    ∀ (fd : PyObj → Option PHPP_Window) (td : PHPP_Window → PyObj)
      (names : List (List Char)) (ws ss : List ℚ) (heap : Heap) (rooms : List Room),
      (∀ i, i < heap.length →
        (applyShadingComponent fd td names ws ss heap rooms).2.1.get? i = heap.get? i) ∧
      (∀ r ∈ (applyShadingComponent fd td names ws ss heap rooms).2.2,
        ∀ f ∈ r, ∀ a ∈ f, heap.length ≤ a) ∧
      (applyShadingComponent fd td names ws ss heap rooms).2.2.length = rooms.length := by
  intro fd td names ws ss heap rooms
  obtain ⟨hg, _, hm⟩ := shading_fold_spec fd td (param_lookup names ws ss) rooms
    (heap, []) heap.length le_rfl
  refine ⟨?_, ?_, ?_⟩
  · intro i hi
    exact hg i hi
  · intro r hr f hf a ha
    rcases hm r hr with hin | hfresh
    · exact absurd hin (List.not_mem_nil _)
    · exact hfresh f hf a ha
  · have := shading_fold_length fd td (param_lookup names ws ss) rooms (heap, [])
    simpa [applyShadingComponent] using this

/-- The apertures whose `'phpp'` data is usable end-to-end (rebuild,
reveal geometry and inset surface all succeed). -/
def usableAps (fd : PyObj → Option PHPP_Window) (rg : PHPP_Window → Option (List ℕ))
    (is : PHPP_Window → Option ℕ) (aps : List Aperture) : List Aperture :=
  aps.filter (fun ap => (revealAperture fd rg is ap).isSome)

theorem reveals_face_fold (fd : PyObj → Option PHPP_Window) (rg : PHPP_Window → Option (List ℕ))
    (is : PHPP_Window → Option ℕ) (heap : Heap) :
    ∀ (face : List ℕ) (acc : List (List Char) × List ℕ),
      face.foldl
        (fun (acc : List (List Char) × List ℕ) aid =>
          let ap := List.getD heap aid defaultAperture
          match revealAperture fd rg is ap with
          | some srf => (acc.1 ++ [ap.display_name], acc.2 ++ [srf])
          | none => acc) acc =
      (acc.1 ++ (usableAps fd rg is (face.map (fun aid => List.getD heap aid defaultAperture))).map
          (fun ap => ap.display_name),
       acc.2 ++ (usableAps fd rg is (face.map (fun aid => List.getD heap aid defaultAperture))).map
          (fun ap => (revealAperture fd rg is ap).getD 0)) := by
  intro face
  induction face with
  | nil => intro acc; simp [usableAps]
  | cons aid face ih =>
    intro acc
    rw [List.foldl_cons]
    cases hr : revealAperture fd rg is (List.getD heap aid defaultAperture) with
    | none =>
      have hr2 : revealAperture fd rg is (heap[aid]?.getD defaultAperture) = none := by
        rw [← List.getD_eq_getElem?_getD]; exact hr
      simp only [hr]
      rw [ih]
      simp [usableAps, List.filter_cons, hr2]
    | some srf =>
      have hr2 : revealAperture fd rg is (heap[aid]?.getD defaultAperture) = some srf := by
        rw [← List.getD_eq_getElem?_getD]; exact hr
      simp only [hr]
      rw [ih]
      simp [usableAps, List.filter_cons, hr2, List.append_assoc]

theorem reveals_room_fold (fd : PyObj → Option PHPP_Window) (rg : PHPP_Window → Option (List ℕ))
    (is : PHPP_Window → Option ℕ) (heap : Heap) :
    ∀ (room : Room) (acc : List (List Char) × List ℕ),
      room.foldl
        (fun acc face =>
          face.foldl
            (fun (acc : List (List Char) × List ℕ) aid =>
              let ap := List.getD heap aid defaultAperture
              match revealAperture fd rg is ap with
              | some srf => (acc.1 ++ [ap.display_name], acc.2 ++ [srf])
              | none => acc) acc) acc =
      (acc.1 ++ (usableAps fd rg is (room.flatMap (fun face =>
          face.map (fun aid => List.getD heap aid defaultAperture)))).map
          (fun ap => ap.display_name),
       acc.2 ++ (usableAps fd rg is (room.flatMap (fun face =>
          face.map (fun aid => List.getD heap aid defaultAperture)))).map
          (fun ap => (revealAperture fd rg is ap).getD 0)) := by
  intro room
  induction room with
  | nil => intro acc; simp [usableAps]
  | cons face room ih =>
    intro acc
    rw [List.foldl_cons, reveals_face_fold, ih]
    simp [usableAps, List.filter_append, List.append_assoc]

/-- C6: `window_names_` and `window_surfaces_` are maps of the same
projection over the same filtered aperture sequence (the apertures
with usable `'phpp'` data, in room / face / aperture order), so they
are index-aligned, have equal length, and an aperture without usable
data contributes to neither. -/
theorem C6_reveals_alignment :
    ∀ (fd : PyObj → Option PHPP_Window) (rg : PHPP_Window → Option (List ℕ))
      (is : PHPP_Window → Option ℕ) (heap : Heap) (rooms : List Room),
      (createWindowReveals fd rg is heap rooms).1 =
        (usableAps fd rg is (roomApertures heap rooms)).map (fun ap => ap.display_name) ∧
      (createWindowReveals fd rg is heap rooms).2 =
        (usableAps fd rg is (roomApertures heap rooms)).map
          (fun ap => (revealAperture fd rg is ap).getD 0) ∧
      (createWindowReveals fd rg is heap rooms).1.length =
        (createWindowReveals fd rg is heap rooms).2.length := by
  intro fd rg is heap rooms
  have main : createWindowReveals fd rg is heap rooms =
      ((usableAps fd rg is (roomApertures heap rooms)).map (fun ap => ap.display_name),
       (usableAps fd rg is (roomApertures heap rooms)).map
         (fun ap => (revealAperture fd rg is ap).getD 0)) := by
    have step : ∀ (rs : List Room) (acc : List (List Char) × List ℕ),
        rs.foldl
          (fun acc room =>
            room.foldl
              (fun acc face =>
                face.foldl
                  (fun (acc : List (List Char) × List ℕ) aid =>
                    let ap := List.getD heap aid defaultAperture
                    match revealAperture fd rg is ap with
                    | some srf => (acc.1 ++ [ap.display_name], acc.2 ++ [srf])
                    | none => acc)
                  acc)
              acc)
          acc =
        (acc.1 ++ (usableAps fd rg is (roomApertures heap rs)).map (fun ap => ap.display_name),
         acc.2 ++ (usableAps fd rg is (roomApertures heap rs)).map
           (fun ap => (revealAperture fd rg is ap).getD 0)) := by
      intro rs
      induction rs with
      | nil => intro acc; simp [usableAps, roomApertures]
      | cons room rs ih =>
        intro acc
        rw [List.foldl_cons, reveals_room_fold, ih]
        simp [usableAps, roomApertures, List.filter_append, List.append_assoc]
    have := step rooms ([], [])
    simpa [createWindowReveals] using this
  refine ⟨?_, ?_, ?_⟩
  · rw [main]
  · rw [main]
  · rw [main]
    simp

end LBT2PH
